import Mathlib

/-!
Verification development for the `parse_json_response` extractor of
`src/app.py` (the MediBill single-page app) together with the pieces of its
caller that classify and display the result.  The Python source is embedded
shallowly: `json.loads` is modelled by an executable recursive-descent JSON
parser, the regex `re.search` over braces by `braceSpan`, and the failure
convention (`return None`, the caller's truthiness check, the `"FAILED"`
sentinel and the status badge) by explicit Lean functions.
-/

namespace MediBill

/-- The opening-brace character, written via its code point. -/
def lbrace : Char := Char.ofNat 123

/-- The closing-brace character, written via its code point. -/
def rbrace : Char := Char.ofNat 125

/-- Python values that `json.loads` can produce, as far as this program is
concerned.  JSON `null` becomes Python `None`, which is the same value
`parse_json_response` returns on failure; the collision is deliberate and
faithful to the source.  Non-integer numerics keep their lexeme (their float
semantics are never needed by the program under verification). -/
inductive Json where
  | null : Json
  | bool (b : Bool) : Json
  | num (n : Int) : Json
  | flt (lexeme : String) : Json
  | str (s : String) : Json
  | arr (elems : List Json) : Json
  | obj (fields : List (String × Json)) : Json

/-- JSON whitespace, as in Python's `json.decoder` (space, tab, newline,
carriage return). -/
def isWsChar (c : Char) : Bool :=
  c = ' ' || c = '\t' || c = '\n' || c = '\r'

/-- Skip JSON whitespace, as the `_w(s, end).end()` calls do. -/
def skipWs (cs : List Char) : List Char :=
  cs.dropWhile isWsChar

/-- Consume an expected literal sequence of characters, as the
`s[idx:idx+4] == 'null'` style checks do. -/
def dropLit : List Char → List Char → Option (List Char)
  | [], cs => some cs
  | _, [] => none
  | l :: ls, c :: cs => if c = l then dropLit ls cs else none

/-- Value of a hex digit, for `\uXXXX` escapes (both cases accepted). -/
def hexVal (c : Char) : Option Nat :=
  if '0' ≤ c ∧ c ≤ '9' then some (c.toNat - 48)
  else if 'a' ≤ c ∧ c ≤ 'f' then some (c.toNat - 87)
  else if 'A' ≤ c ∧ c ≤ 'F' then some (c.toNat - 55)
  else none

/-- Decoded character for a single-character escape, per `py_scanstring`'s
BACKSLASH table. -/
def escDecode (c : Char) : Option Char :=
  if c = '"' then some '"'
  else if c = '\\' then some '\\'
  else if c = '/' then some '/'
  else if c = 'b' then some (Char.ofNat 8)
  else if c = 'f' then some (Char.ofNat 12)
  else if c = 'n' then some '\n'
  else if c = 'r' then some '\r'
  else if c = 't' then some '\t'
  else none

/-- Decoding of a `\uXXXX` escape, entered after the `\u`, per
`py_scanstring`: four hex digits, with a following low-surrogate escape
combined into one code point.  A lone surrogate, which Python would keep,
has no Lean `Char` counterpart and is mapped to failure - no input of this
development contains one. -/
def uEscape (cs : List Char) : Option (Char × List Char) :=
  match cs with
  | a :: b :: c :: d :: r =>
    match hexVal a, hexVal b, hexVal c, hexVal d with
    | some x, some y, some z, some w =>
      let n := ((x * 16 + y) * 16 + z) * 16 + w
      if n < 0xD800 ∨ 0xE000 ≤ n then some (Char.ofNat n, r)
      else if n < 0xDC00 then
        match r with
        | b2 :: u2 :: a4 :: b4 :: c4 :: d4 :: r4 =>
          if b2 = '\\' ∧ u2 = 'u' then
            match hexVal a4, hexVal b4, hexVal c4, hexVal d4 with
            | some x2, some y2, some z2, some w2 =>
              let m := ((x2 * 16 + y2) * 16 + z2) * 16 + w2
              if 0xDC00 ≤ m ∧ m < 0xE000 then
                some (Char.ofNat (0x10000 + (n - 0xD800) * 0x400 + (m - 0xDC00)), r4)
              else none
            | _, _, _, _ => none
          else none
        | _ => none
      else none
    | _, _, _, _ => none
  | _ => none

/-- Digits of a decimal number. -/
def spanDigits (cs : List Char) : List Char × List Char :=
  cs.span Char.isDigit

/-- Numeric value of a digit string. -/
def digitsToNat (ds : List Char) : Nat :=
  ds.foldl (fun acc c => acc * 10 + (c.toNat - 48)) 0

/-- Fraction part `.digits`, if the regex group `(\.\d+)?` matches. -/
def numFracPart (cs : List Char) : List Char × List Char :=
  match cs with
  | '.' :: r =>
    let p := spanDigits r
    if p.1 = [] then ([], cs) else ('.' :: p.1, p.2)
  | _ => ([], cs)

/-- Exponent part `[eE][+-]?digits`, if the regex group matches. -/
def numExpPart (cs : List Char) : List Char × List Char :=
  match cs with
  | e :: r =>
    if e = 'e' ∨ e = 'E' then
      match r with
      | s :: r2 =>
        if s = '+' ∨ s = '-' then
          let p := spanDigits r2
          if p.1 = [] then ([], cs) else (e :: s :: p.1, p.2)
        else
          let p := spanDigits r
          if p.1 = [] then ([], cs) else (e :: p.1, p.2)
      | [] => ([], cs)
    else ([], cs)
  | _ => ([], cs)

/-- Integer part of Python's `NUMBER_RE`: `-?(0|[1-9]\d*)`.  Returns the
sign flag, the integer digits, and the remainder. -/
def numIntPart (cs : List Char) : Option (Bool × List Char × List Char) :=
  let p : Bool × List Char := match cs with
    | '-' :: r => (true, r)
    | _ => (false, cs)
  match p.2 with
  | c :: r =>
    if c = '0' then some (p.1, ['0'], r)
    else if c.isDigit then
      let q := spanDigits r
      some (p.1, c :: q.1, q.2)
    else none
  | [] => none

/-- A JSON number, per Python's `NUMBER_RE` and its int/float split:
an integer lexeme becomes a Python `int`, anything with a fraction or
exponent becomes a float (kept as its lexeme). -/
def parseNumber (cs : List Char) : Option (Json × List Char) :=
  match numIntPart cs with
  | none => none
  | some (neg, intDs, r1) =>
    let fr := numFracPart r1
    let ex := numExpPart fr.2
    if fr.1 = [] ∧ ex.1 = [] then
      let n : Int := Int.ofNat (digitsToNat intDs)
      some (Json.num (if neg then -n else n), r1)
    else
      some (Json.flt ⟨(if neg then ['-'] else []) ++ intDs ++ fr.1 ++ ex.1⟩,
            ex.2)

/-- The mutually recursive parsing functions of `json.scanner` and
`py_scanstring`, packaged so that the fuel recursion is plain structural
recursion on `Nat`. -/
structure ParserPack where
  value : List Char → Option (Json × List Char)
  members : List (String × Json) → List Char → Option (Json × List Char)
  elems : List Json → List Char → Option (Json × List Char)
  strBody : List Char → Option (List Char × List Char)

/-- One unfolding step of the scanner: each recursive occurrence is taken
from the previous pack.  `value` is Python's `_scan_once`; `members` is the
loop of `JSONObject`, entered at an expected property-name quote; `elems` is
the loop of `JSONArray`, entered at an expected element; `strBody` is the
body of a string literal, entered after the opening quote, per
`py_scanstring` in strict mode (unescaped control characters are an
error). -/
def parserStep (p : ParserPack) : ParserPack where
  value cs :=
    match cs with
    | [] => none
    | c :: rest =>
      if c = '"' then
        (p.strBody rest).map (fun q => (Json.str ⟨q.1⟩, q.2))
      else if c = lbrace then
        match skipWs rest with
        | [] => none
        | c2 :: r2 =>
          if c2 = rbrace then some (Json.obj [], r2)
          else p.members [] (c2 :: r2)
      else if c = '[' then
        match skipWs rest with
        | [] => none
        | c2 :: r2 =>
          if c2 = ']' then some (Json.arr [], r2)
          else p.elems [] (c2 :: r2)
      else if c = 'n' then
        (dropLit ['u', 'l', 'l'] rest).map (fun r => (Json.null, r))
      else if c = 't' then
        (dropLit ['r', 'u', 'e'] rest).map (fun r => (Json.bool true, r))
      else if c = 'f' then
        (dropLit ['a', 'l', 's', 'e'] rest).map (fun r => (Json.bool false, r))
      else
        match parseNumber (c :: rest) with
        | some q => some q
        | none =>
          if c = 'N' then
            (dropLit ['a', 'N'] rest).map (fun r => (Json.flt "NaN", r))
          else if c = 'I' then
            (dropLit ['n', 'f', 'i', 'n', 'i', 't', 'y'] rest).map
              (fun r => (Json.flt "Infinity", r))
          else if c = '-' then
            (dropLit ['I', 'n', 'f', 'i', 'n', 'i', 't', 'y'] rest).map
              (fun r => (Json.flt "-Infinity", r))
          else none
  members acc cs :=
    match cs with
    | '"' :: r =>
      match p.strBody r with
      | none => none
      | some (k, r1) =>
        match skipWs r1 with
        | ':' :: r3 =>
          match p.value (skipWs r3) with
          | none => none
          | some (v, r4) =>
            match skipWs r4 with
            | ',' :: r6 => p.members (acc ++ [(⟨k⟩, v)]) (skipWs r6)
            | c :: r6 =>
              if c = rbrace then some (Json.obj (acc ++ [(⟨k⟩, v)]), r6)
              else none
            | [] => none
        | _ => none
    | _ => none
  elems acc cs :=
    match p.value cs with
    | none => none
    | some (v, r1) =>
      match skipWs r1 with
      | ',' :: r2 => p.elems (acc ++ [v]) (skipWs r2)
      | c :: r2 =>
        if c = ']' then some (Json.arr (acc ++ [v]), r2)
        else none
      | [] => none
  strBody cs :=
    match cs with
    | [] => none
    | c :: rest =>
      if c = '"' then some ([], rest)
      else if c = '\\' then
        match rest with
        | [] => none
        | e :: r2 =>
          if e = 'u' then
            match uEscape r2 with
            | some (ec, r3) => (p.strBody r3).map (fun q => (ec :: q.1, q.2))
            | none => none
          else
            match escDecode e with
            | some ec => (p.strBody r2).map (fun q => (ec :: q.1, q.2))
            | none => none
      else if c.toNat < 32 then none
      else (p.strBody rest).map (fun q => (c :: q.1, q.2))

/-- The scanner at a given fuel; fuel `0` fails everywhere.  Each step of
the real scanner consumes at least one character per pack level, so fuel
`length + 1` always suffices. -/
def parsers : Nat → ParserPack
  | 0 => ⟨fun _ => none, fun _ _ => none, fun _ _ => none, fun _ => none⟩
  | f + 1 => parserStep (parsers f)

/-- `_scan_once` at a given fuel. -/
def parseValue (f : Nat) : List Char → Option (Json × List Char) :=
  (parsers f).value

/-- The `JSONObject` member loop at a given fuel. -/
def parseMembers (f : Nat) :
    List (String × Json) → List Char → Option (Json × List Char) :=
  (parsers f).members

/-- The string-literal body scan at a given fuel. -/
def parseStrB (f : Nat) : List Char → Option (List Char × List Char) :=
  (parsers f).strBody

/-- `json.loads` on a character list: skip leading whitespace, scan one
value, allow trailing whitespace, and fail (raise `JSONDecodeError`,
modelled as `none`) otherwise. -/
def loadsL (cs : List Char) : Option Json :=
  match parseValue (cs.length + 1) (skipWs cs) with
  | some (v, rest) => if (skipWs rest).isEmpty then some v else none
  | none => none

/-- `json.loads` on a string. -/
def jsonLoads (s : String) : Option Json :=
  loadsL s.data

/-- The match of `re.search(r'\x7b.*\x7d', text, re.DOTALL)`: the span from
the first opening brace through the last closing brace, when the latter
comes after the former. -/
def braceSpan (cs : List Char) : Option (List Char) :=
  match cs.dropWhile (fun c => !(c = lbrace)) with
  | [] => none
  | t1 :: t2 =>
    match ((t1 :: t2).reverse.dropWhile (fun c => !(c = rbrace))).reverse with
    | [] => none
    | r1 :: r2 => some (r1 :: r2)

/-- Shallow embedding of `parse_json_response` (src/app.py lines 39-52) on a
string argument: take the brace span if the regex matches, otherwise fall
back to the whole text, run `json.loads`, and return Python `None` (here
`Json.null`) when a `JSONDecodeError` is caught. -/
def parse_json_response (s : String) : Json :=
  match braceSpan s.data with
  | some core => (loadsL core).getD Json.null
  | none => (loadsL s.data).getD Json.null

/-- Outcome of calling a Python function: either a value is returned or an
uncaught exception escapes. -/
inductive PyCall where
  | raised (exc : String) : PyCall
  | returns (v : Json) : PyCall

/-- Calling `parse_json_response` with an `Optional[str]`: on `None`,
`re.search` raises `TypeError`, which the `except json.JSONDecodeError`
clause does not catch. -/
def parse_json_response_py : Option String → PyCall
  | none => PyCall.raised "TypeError"
  | some s => PyCall.returns (parse_json_response s)

/-- Python truthiness of a float lexeme: zero mantissas are falsy, `NaN` and
the infinities are truthy. -/
def fltTruthy (lexeme : String) : Bool :=
  if lexeme = "NaN" ∨ lexeme = "Infinity" ∨ lexeme = "-Infinity" then true
  else
    (lexeme.data.takeWhile (fun c => !(c = 'e' || c = 'E'))).any
      (fun c => c.isDigit && !(c = '0'))

/-- Python truthiness of the values `parse_json_response` can return. -/
def pyTruthy : Json → Bool
  | Json.null => false
  | Json.bool b => b
  | Json.num n => !(n = 0)
  | Json.flt lexeme => fltTruthy lexeme
  | Json.str s => !(s = "")
  | Json.arr elems => !elems.isEmpty
  | Json.obj fields => !fields.isEmpty

/-- The explanation button handler (src/app.py lines 362-364):
`st.session_state[exp_key] = parsed if parsed else "FAILED"`.  A falsy parse
result is replaced by the string sentinel `"FAILED"`. -/
def storeExplanation (text : String) : Json :=
  let parsed := parse_json_response text
  if pyTruthy parsed then parsed else Json.str "FAILED"

/-- Python `dict` lookup on the association list produced by the parser:
later duplicate keys win, as in `dict(pairs)`. -/
def dictGet (fields : List (String × Json)) (k : String) : Option Json :=
  match fields with
  | [] => none
  | (k1, v) :: rest =>
    match dictGet rest k with
    | some r => some r
    | none => if k1 = k then some v else none

/-- Python `d.get(k, default)`. -/
def dictGetD (fields : List (String × Json)) (k : String) (dflt : Json) :
    Json :=
  (dictGet fields k).getD dflt

/-- The three status badges the display code can render. -/
inductive Badge where
  | success : Badge
  | warning : Badge
  | error : Badge
  deriving DecidableEq, Repr

/-- Python string equality test `v == s` for a value that may not be a
string: comparisons between a non-string and a string are `False`. -/
def jsonIsStr (v : Json) (s : String) : Bool :=
  match v with
  | Json.str t => t = s
  | _ => false

/-- The status badge of src/app.py lines 386-392: anything other than the
two recognized positive statuses falls into the `st.error` branch. -/
def statusBadge (status : Json) : Badge :=
  if jsonIsStr status "LIKELY_COVERED" then Badge.success
  else if jsonIsStr status "PARTIALLY_COVERED" then Badge.warning
  else Badge.error

/-- Lower-case hex digit for a value below 16. -/
def hexDigit (d : Nat) : Char :=
  if d < 10 then Char.ofNat (48 + d) else Char.ofNat (87 + d)

/-- JSON escaping of one character, used to form the arbitrary valid JSON
object inputs that the round-trip claims quantify over: quote and backslash
get a short escape, control characters a `\u00XX` escape, and every other
character stands for itself. -/
def escChar (c : Char) : List Char :=
  if c = '"' then ['\\', '"']
  else if c = '\\' then ['\\', '\\']
  else if c.toNat < 32 then
    ['\\', 'u', '0', '0', hexDigit (c.toNat / 16), hexDigit (c.toNat % 16)]
  else [c]

/-- JSON escaping of a character list. -/
def escL : List Char → List Char
  | [] => []
  | c :: cs => escChar c ++ escL cs

/-- Characters of the JSON member `"k":"v"` followed by `tail`. -/
def fieldChunk (k v : String) (tail : List Char) : List Char :=
  '"' :: (escL k.data ++ '"' :: ':' :: '"' :: (escL v.data ++ '"' :: tail))

/-- Characters of a comma-separated run of JSON members followed by
`tail`. -/
def fieldsChunk : List (String × String) → List Char → List Char
  | [], tail => tail
  | [(k, v)], tail => fieldChunk k v tail
  | (k, v) :: p :: ps, tail => fieldChunk k v (',' :: fieldsChunk (p :: ps) tail)

/-- Characters of a JSON object with the given string-valued members. -/
def objChunk (ps : List (String × String)) : List Char :=
  lbrace :: fieldsChunk ps [rbrace]

/-- The object value such an input denotes. -/
def objOf (ps : List (String × String)) : Json :=
  Json.obj (ps.map (fun p => (p.1, Json.str p.2)))

/-- Fuel budget that is always sufficient for the member loop on the
serialized members (the scanner never needs more than one fuel level per
consumed character). -/
def needPs : List (String × String) → Nat
  | [] => 0
  | (k, v) :: ps => k.data.length + v.data.length + 3 + needPs ps

/-- A valid JSON object input containing the four expected fields, with
arbitrary string contents. -/
def mkBillingJson (e i n d : String) : String :=
  ⟨objChunk [("explanation", e), ("insurance_status", i),
    ("insurance_note", n), ("disclaimer", d)]⟩

/-- A valid JSON object input containing only an `explanation` field. -/
def mkExplanationOnlyJson (e : String) : String :=
  ⟨objChunk [("explanation", e)]⟩

/-- A model response that wraps a two-field JSON object, with an arbitrary
`insurance_status` value, in conversational prose. -/
def mkStatusResponse (st : String) : String :=
  ⟨"Sure! ".data ++ objChunk [("explanation", "x"), ("insurance_status", st)]
    ++ " Hope that helps.".data⟩

/-- Index of the first occurrence of a character, if any. -/
def firstIdxFrom : List Char → Char → Option Nat
  | [], _ => none
  | c :: cs, x =>
    if c = x then some 0 else (firstIdxFrom cs x).map (· + 1)

/-- Index of the last occurrence of a character, if any. -/
def lastIdxOf (cs : List Char) (x : Char) : Option Nat :=
  (firstIdxFrom cs.reverse x).map (fun k => cs.length - 1 - k)

/-- The condition of spec step 3, in the claim's own vocabulary: the first
`\x7b` is absent, or the last `\x7d` is absent, or the last `\x7d` occurs
before the first `\x7b`. -/
def noJsonSpanB (cs : List Char) : Bool :=
  match firstIdxFrom cs lbrace, lastIdxOf cs rbrace with
  | none, _ => true
  | _, none => true
  | some i, some j => decide (j < i)

/-! Round-trip lemmas: the parser inverts the escaping serializer, so the
claims that quantify over arbitrary valid JSON object inputs can be settled
for arbitrary field contents. -/


/-! Round-trip lemmas: the parser inverts the escaping serializer, so the
claims that quantify over arbitrary valid JSON object inputs can be settled
with arbitrary field contents. -/

lemma hexVal_hexDigit (d : Nat) (h : d < 16) : hexVal (hexDigit d) = some d := by
  interval_cases d <;> decide

lemma parsers_succ (f : Nat) : parsers (f + 1) = parserStep (parsers f) := by
  simp [parsers]

lemma uEscape_hexDigits (hi lo : Nat) (hhi : hi < 2) (hlo : lo < 16)
    (r : List Char) :
    uEscape ('0' :: '0' :: hexDigit hi :: hexDigit lo :: r) =
      some (Char.ofNat (hi * 16 + lo), r) := by
  have hhi16 : hi < 16 := by omega
  have hlt : ((0 * 16 + 0) * 16 + hi) * 16 + lo < 55296 := by omega
  have hn : ((0 * 16 + 0) * 16 + hi) * 16 + lo = hi * 16 + lo := by omega
  rw [uEscape]
  simp only [show hexVal '0' = some 0 by decide, hexVal_hexDigit hi hhi16,
    hexVal_hexDigit lo hlo]
  rw [if_pos (Or.inl hlt), hn]

lemma psb_close (f : Nat) (r : List Char) :
    parseStrB (f + 1) ('"' :: r) = some ([], r) := by
  simp [parseStrB, parsers_succ, parserStep]

lemma psb_escQuote (f : Nat) (r : List Char) :
    parseStrB (f + 1) ('\\' :: '"' :: r) =
      (parseStrB f r).map (fun q => ('"' :: q.1, q.2)) := by
  simp [parseStrB, parsers_succ, parserStep,
    show ¬ ('\\' : Char) = '"' by decide, show ¬ ('"' : Char) = 'u' by decide,
    escDecode]

lemma psb_escBackslash (f : Nat) (r : List Char) :
    parseStrB (f + 1) ('\\' :: '\\' :: r) =
      (parseStrB f r).map (fun q => ('\\' :: q.1, q.2)) := by
  simp [parseStrB, parsers_succ, parserStep,
    show ¬ ('\\' : Char) = '"' by decide, show ¬ ('\\' : Char) = 'u' by decide,
    escDecode]

lemma psb_plain (f : Nat) (c : Char) (r : List Char) (h1 : ¬ c = '"')
    (h2 : ¬ c = '\\') (h3 : ¬ c.toNat < 32) :
    parseStrB (f + 1) (c :: r) =
      (parseStrB f r).map (fun q => (c :: q.1, q.2)) := by
  simp [parseStrB, parsers_succ, parserStep, h1, h2, h3]

lemma psb_u00 (f : Nat) (hi lo : Nat) (hhi : hi < 2) (hlo : lo < 16)
    (r : List Char) :
    parseStrB (f + 1)
        ('\\' :: 'u' :: '0' :: '0' :: hexDigit hi :: hexDigit lo :: r) =
      (parseStrB f r).map (fun q => (Char.ofNat (hi * 16 + lo) :: q.1, q.2)) := by
  simp [parseStrB, parsers_succ, parserStep,
    show ¬ ('\\' : Char) = '"' by decide, uEscape_hexDigits hi lo hhi hlo]

lemma parseStrB_escL (cs : List Char) (g : Nat) (rest : List Char) :
    parseStrB (cs.length + 1 + g) (escL cs ++ '"' :: rest) =
      some (cs, rest) := by
  induction cs with
  | nil =>
    have h1 : ([] : List Char).length + 1 + g = g + 1 := by
      simp
      omega
    rw [h1]
    simp [escL, psb_close]
  | cons c cs ih =>
    have h1 : (c :: cs).length + 1 + g = (cs.length + 1 + g) + 1 := by
      simp [List.length_cons]
      omega
    rw [h1]
    by_cases hq : c = '"'
    · subst hq
      simp [escL, escChar, psb_escQuote, ih]
    · by_cases hb : c = '\\'
      · subst hb
        simp [escL, escChar, psb_escBackslash, ih]
      · by_cases hc : c.toNat < 32
        · have hhi : c.toNat / 16 < 2 := by omega
          have hlo : c.toNat % 16 < 16 := by omega
          have hsum : c.toNat / 16 * 16 + c.toNat % 16 = c.toNat := by omega
          simp only [escL, escChar, hq, hb, hc, ite_true, ite_false,
            List.cons_append, List.append_assoc, List.nil_append]
          rw [psb_u00 _ _ _ hhi hlo, hsum, Char.ofNat_toNat, ih]
          rfl
        · simp [escL, escChar, hq, hb, hc, psb_plain _ c _ hq hb hc, ih]

/-! Lemmas stepping the scanner through a serialized object. -/

lemma skipWs_cons_not (c : Char) (cs : List Char) (h : isWsChar c = false) :
    skipWs (c :: cs) = c :: cs := by
  simp [skipWs, List.dropWhile_cons, h]

lemma skipWs_fieldsChunk (p : String × String) (ps : List (String × String))
    (t : List Char) :
    skipWs (fieldsChunk (p :: ps) t) = fieldsChunk (p :: ps) t := by
  rcases p with ⟨k, v⟩
  cases ps <;>
    simp [fieldsChunk, fieldChunk, skipWs_cons_not, show isWsChar '"' = false by decide]

lemma value_str (f : Nat) (r : List Char) :
    parseValue (f + 1) ('"' :: r) =
      (parseStrB f r).map (fun q => (Json.str ⟨q.1⟩, q.2)) := by
  simp [parseValue, parseStrB, parsers_succ, parserStep]

lemma value_obj_members (f : Nat) (r r1 : List Char)
    (h : skipWs r = '"' :: r1) :
    parseValue (f + 1) (lbrace :: r) = parseMembers f [] ('"' :: r1) := by
  simp [parseValue, parseMembers, parsers_succ, parserStep, h,
    show ¬ lbrace = '"' by decide, show ¬ ('"' : Char) = rbrace by decide]

lemma members_field_comma (f : Nat) (acc : List (String × Json)) (k v : String)
    (rest : List Char) (g1 g2 : Nat) (hf1 : f = k.data.length + 1 + g1)
    (hf2 : f = v.data.length + 2 + g2) :
    parseMembers (f + 1) acc (fieldChunk k v (',' :: rest)) =
      parseMembers f (acc ++ [(k, Json.str v)]) (skipWs rest) := by
  have hk : parseStrB f
      (escL k.data ++ '"' :: ':' :: '"' :: (escL v.data ++ '"' :: ',' :: rest)) =
      some (k.data, ':' :: '"' :: (escL v.data ++ '"' :: ',' :: rest)) := by
    rw [hf1]
    exact parseStrB_escL k.data g1 _
  have hv : parseValue f ('"' :: (escL v.data ++ '"' :: ',' :: rest)) =
      some (Json.str v, ',' :: rest) := by
    rw [hf2, show v.data.length + 2 + g2 = (v.data.length + 1 + g2) + 1 by omega,
      value_str, parseStrB_escL v.data g2]
    rfl
  simp only [parseStrB] at hk
  simp only [parseValue] at hv
  simp [parseMembers, fieldChunk, parsers_succ, parserStep,
    hk, hv, skipWs_cons_not, show isWsChar ':' = false by decide,
    show isWsChar '"' = false by decide, show isWsChar ',' = false by decide]

lemma members_field_rbrace (f : Nat) (acc : List (String × Json)) (k v : String)
    (rest : List Char) (g1 g2 : Nat) (hf1 : f = k.data.length + 1 + g1)
    (hf2 : f = v.data.length + 2 + g2) :
    parseMembers (f + 1) acc (fieldChunk k v (rbrace :: rest)) =
      some (Json.obj (acc ++ [(k, Json.str v)]), rest) := by
  have hk : parseStrB f
      (escL k.data ++ '"' :: ':' :: '"' :: (escL v.data ++ '"' :: rbrace :: rest)) =
      some (k.data, ':' :: '"' :: (escL v.data ++ '"' :: rbrace :: rest)) := by
    rw [hf1]
    exact parseStrB_escL k.data g1 _
  have hv : parseValue f ('"' :: (escL v.data ++ '"' :: rbrace :: rest)) =
      some (Json.str v, rbrace :: rest) := by
    rw [hf2, show v.data.length + 2 + g2 = (v.data.length + 1 + g2) + 1 by omega,
      value_str, parseStrB_escL v.data g2]
    rfl
  simp only [parseStrB] at hk
  simp only [parseValue] at hv
  simp [parseMembers, fieldChunk, parsers_succ, parserStep,
    hk, hv, skipWs_cons_not, show isWsChar ':' = false by decide,
    show isWsChar '"' = false by decide, show isWsChar rbrace = false by decide,
    show ¬ rbrace = ',' by decide]

lemma members_fieldsChunk (ps : List (String × String)) (hne : ps ≠ [])
    (g : Nat) (acc : List (String × Json)) (rest : List Char) :
    parseMembers (needPs ps + g + 1) acc (fieldsChunk ps (rbrace :: rest)) =
      some (Json.obj (acc ++ ps.map (fun p => (p.1, Json.str p.2))), rest) := by
  induction ps generalizing g acc with
  | nil => exact absurd rfl hne
  | cons hd tl ih =>
    rcases hd with ⟨k, v⟩
    cases tl with
    | nil =>
      have h1 : needPs [(k, v)] + g + 1 =
          (k.data.length + v.data.length + 3 + g) + 1 := by
        simp [needPs]
      rw [h1, fieldsChunk,
        members_field_rbrace _ _ _ _ _ (v.data.length + 2 + g) (k.data.length + 1 + g)
          (by omega) (by omega)]
      simp
    | cons p2 ps2 =>
      have h1 : needPs ((k, v) :: p2 :: ps2) + g + 1 =
          (k.data.length + v.data.length + 3 + needPs (p2 :: ps2) + g) + 1 := by
        simp only [needPs]
      rw [h1, fieldsChunk,
        members_field_comma _ _ _ _ _ (v.data.length + 2 + needPs (p2 :: ps2) + g)
          (k.data.length + 1 + needPs (p2 :: ps2) + g) (by omega) (by omega),
        skipWs_fieldsChunk,
        show k.data.length + v.data.length + 3 + needPs (p2 :: ps2) + g =
          needPs (p2 :: ps2) + (k.data.length + v.data.length + 2 + g) + 1 by omega,
        ih (by simp)]
      simp

lemma value_objChunk (ps : List (String × String)) (hne : ps ≠ []) (g : Nat)
    (rest : List Char) :
    parseValue (needPs ps + g + 2) (lbrace :: fieldsChunk ps (rbrace :: rest)) =
      some (objOf ps, rest) := by
  have hhead : skipWs (fieldsChunk ps (rbrace :: rest)) =
      fieldsChunk ps (rbrace :: rest) := by
    cases ps with
    | nil => exact absurd rfl hne
    | cons p ps' => exact skipWs_fieldsChunk p ps' _
  have hsh : ∃ r1, fieldsChunk ps (rbrace :: rest) = '"' :: r1 := by
    cases ps with
    | nil => exact absurd rfl hne
    | cons p ps' =>
      rcases p with ⟨k, v⟩
      cases ps' <;> exact ⟨_, rfl⟩
  rcases hsh with ⟨r1, hr1⟩
  rw [show needPs ps + g + 2 = (needPs ps + g + 1) + 1 by omega,
    value_obj_members _ _ r1 (by rw [hhead, hr1]), ← hr1,
    members_fieldsChunk ps hne g [] rest]
  simp [objOf]

lemma escChar_length_pos (c : Char) : 1 ≤ (escChar c).length := by
  simp only [escChar]
  split
  · simp
  · split
    · simp
    · split <;> simp

lemma escL_length_ge (cs : List Char) : cs.length ≤ (escL cs).length := by
  induction cs with
  | nil => simp [escL]
  | cons c cs ih =>
    simp only [escL, List.length_append, List.length_cons]
    have := escChar_length_pos c
    omega

lemma fieldsChunk_length_ge (ps : List (String × String)) (t : List Char) :
    needPs ps + t.length ≤ (fieldsChunk ps t).length := by
  induction ps generalizing t with
  | nil => simp [needPs, fieldsChunk]
  | cons hd tl ih =>
    rcases hd with ⟨k, v⟩
    cases tl with
    | nil =>
      have h1 := escL_length_ge k.data
      have h2 := escL_length_ge v.data
      simp only [needPs, fieldsChunk, fieldChunk, List.length_cons,
        List.length_append]
      omega
    | cons p2 ps2 =>
      have h1 := escL_length_ge k.data
      have h2 := escL_length_ge v.data
      have h4 := ih t
      simp only [needPs, fieldsChunk, fieldChunk, List.length_cons,
        List.length_append] at h4 ⊢
      omega

lemma loadsL_objChunk (ps : List (String × String)) (hne : ps ≠ []) :
    loadsL (objChunk ps) = some (objOf ps) := by
  have hlen : needPs ps + 1 ≤ (objChunk ps).length := by
    have := fieldsChunk_length_ge ps [rbrace]
    simp only [objChunk, List.length_cons, List.length_singleton] at this ⊢
    omega
  obtain ⟨g, hg⟩ : ∃ g, (objChunk ps).length + 1 = needPs ps + g + 2 :=
    ⟨(objChunk ps).length - 1 - needPs ps, by omega⟩
  have hws : skipWs (objChunk ps) = objChunk ps := by
    simp [objChunk, skipWs_cons_not, show isWsChar lbrace = false by decide]
  rw [loadsL, hws, hg]
  rw [show objChunk ps = lbrace :: fieldsChunk ps (rbrace :: []) from rfl,
    value_objChunk ps hne g]
  simp [skipWs]

/-! Lemmas locating the regex brace span. -/

lemma dropWhile_append_all (p : Char → Bool) (l1 l2 : List Char)
    (h : ∀ c ∈ l1, p c = true) :
    List.dropWhile p (l1 ++ l2) = List.dropWhile p l2 := by
  induction l1 with
  | nil => simp
  | cons a l ih =>
    simp only [List.cons_append, List.dropWhile_cons, h a (by simp), if_true]
    exact ih (fun c hc => h c (by simp [hc]))

lemma braceSpan_decomp (pre mid post : List Char) (hpre : lbrace ∉ pre)
    (hpost : rbrace ∉ post) :
    braceSpan (pre ++ lbrace :: (mid ++ rbrace :: post)) =
      some (lbrace :: (mid ++ [rbrace])) := by
  have h1 : (pre ++ lbrace :: (mid ++ rbrace :: post)).dropWhile
      (fun c => !(c = lbrace : Bool)) = lbrace :: (mid ++ rbrace :: post) := by
    rw [dropWhile_append_all _ _ _ (fun c hc => by
      simp only [Bool.not_eq_true', decide_eq_false_iff_not]
      exact fun h => hpre (h ▸ hc))]
    simp [List.dropWhile_cons]
  have h2 : ((lbrace :: (mid ++ rbrace :: post)).reverse.dropWhile
      (fun c => !(c = rbrace : Bool))).reverse = lbrace :: (mid ++ [rbrace]) := by
    have hrev : (lbrace :: (mid ++ rbrace :: post)).reverse =
        post.reverse ++ rbrace :: (mid.reverse ++ [lbrace]) := by
      simp [List.reverse_cons, List.reverse_append]
    rw [hrev, dropWhile_append_all _ _ _ (fun c hc => by
      simp only [Bool.not_eq_true', decide_eq_false_iff_not]
      exact fun h => hpost (h ▸ List.mem_reverse.mp hc))]
    simp [List.dropWhile_cons]
  simp only [braceSpan, h1, h2]

lemma fieldChunk_append (k v : String) (t1 t2 : List Char) :
    fieldChunk k v (t1 ++ t2) = fieldChunk k v t1 ++ t2 := by
  simp [fieldChunk]

lemma fieldsChunk_append (ps : List (String × String)) (t1 t2 : List Char) :
    fieldsChunk ps (t1 ++ t2) = fieldsChunk ps t1 ++ t2 := by
  induction ps with
  | nil => simp [fieldsChunk]
  | cons hd tl ih =>
    rcases hd with ⟨k, v⟩
    cases tl with
    | nil => simp [fieldsChunk, fieldChunk_append]
    | cons p2 ps2 =>
      show fieldChunk k v (',' :: fieldsChunk (p2 :: ps2) (t1 ++ t2)) = _
      rw [ih, show ',' :: (fieldsChunk (p2 :: ps2) t1 ++ t2) =
        (',' :: fieldsChunk (p2 :: ps2) t1) ++ t2 from rfl, fieldChunk_append]
      rfl

lemma fieldsChunk_snoc_rbrace (ps : List (String × String)) :
    fieldsChunk ps [rbrace] = fieldsChunk ps [] ++ [rbrace] := by
  have h := fieldsChunk_append ps [] [rbrace]
  simpa using h

lemma braceSpan_objChunk (ps : List (String × String)) :
    braceSpan (objChunk ps) = some (objChunk ps) := by
  have h := braceSpan_decomp [] (fieldsChunk ps []) [] (by simp) (by simp)
  simp only [List.nil_append] at h
  rw [show objChunk ps = lbrace :: (fieldsChunk ps [] ++ rbrace :: []) by
    simp [objChunk, fieldsChunk_snoc_rbrace], h]

lemma parse_json_response_objChunk (ps : List (String × String))
    (hne : ps ≠ []) :
    parse_json_response ⟨objChunk ps⟩ = objOf ps := by
  have hb : braceSpan (String.data ⟨objChunk ps⟩) = some (objChunk ps) :=
    braceSpan_objChunk ps
  simp [parse_json_response, hb, loadsL_objChunk ps hne]

lemma parse_json_response_wrapped (pre post : List Char)
    (ps : List (String × String)) (hne : ps ≠ []) (hpre : lbrace ∉ pre)
    (hpost : rbrace ∉ post) :
    parse_json_response ⟨pre ++ objChunk ps ++ post⟩ = objOf ps := by
  have hshape : pre ++ objChunk ps ++ post =
      pre ++ lbrace :: (fieldsChunk ps [] ++ rbrace :: post) := by
    simp [objChunk, fieldsChunk_snoc_rbrace]
  have hb : braceSpan (String.data ⟨pre ++ objChunk ps ++ post⟩) =
      some (objChunk ps) := by
    show braceSpan (pre ++ objChunk ps ++ post) = some (objChunk ps)
    rw [hshape, braceSpan_decomp pre _ post hpre hpost,
      show objChunk ps = lbrace :: (fieldsChunk ps [] ++ [rbrace]) by
        simp [objChunk, fieldsChunk_snoc_rbrace]]
  simp only [String.data] at hb
  simp only [List.append_assoc] at hb
  simp [parse_json_response, hb, loadsL_objChunk ps hne]

lemma storeExplanation_of_obj (s : String) (l : List (String × Json))
    (hl : l ≠ []) (h : parse_json_response s = Json.obj l) :
    storeExplanation s = Json.obj l := by
  simp [storeExplanation, h, pyTruthy, hl]

/-! Lemmas for the no-span condition stated via first and last brace
indices. -/

lemma firstIdxFrom_eq_none (cs : List Char) (x : Char) :
    firstIdxFrom cs x = none ↔ x ∉ cs := by
  induction cs with
  | nil => simp [firstIdxFrom]
  | cons c cs ih =>
    by_cases h : c = x
    · subst h
      simp [firstIdxFrom]
    · simp only [firstIdxFrom, h, ite_false, Option.map_eq_none', ih,
        List.mem_cons]
      constructor
      · intro hn hor
        rcases hor with h1 | h2
        · exact h h1.symm
        · exact hn h2
      · intro hn
        exact fun h2 => hn (Or.inr h2)

lemma firstIdxFrom_lt_length (cs : List Char) (x : Char) (k : Nat)
    (h : firstIdxFrom cs x = some k) : k < cs.length := by
  induction cs generalizing k with
  | nil => simp [firstIdxFrom] at h
  | cons c cs ih =>
    by_cases hc : c = x
    · subst hc
      simp only [firstIdxFrom, ite_true, Option.some.injEq] at h
      simp only [List.length_cons]
      omega
    · simp only [firstIdxFrom, hc, ite_false, Option.map_eq_some'] at h
      rcases h with ⟨k1, hk1, hk⟩
      have := ih k1 hk1
      simp only [List.length_cons]
      omega

lemma firstIdxFrom_append_of_mem (a b : List Char) (x : Char) (h : x ∈ a) :
    firstIdxFrom (a ++ b) x = firstIdxFrom a x := by
  induction a with
  | nil => simp at h
  | cons c a ih =>
    by_cases hc : c = x
    · subst hc
      simp [firstIdxFrom]
    · have hm : x ∈ a := by
        rcases List.mem_cons.mp h with h1 | h2
        · exact absurd h1.symm hc
        · exact h2
      simp [firstIdxFrom, hc, ih hm]

lemma lastIdxOf_eq_none (cs : List Char) (x : Char) :
    lastIdxOf cs x = none ↔ x ∉ cs := by
  simp [lastIdxOf, Option.map_eq_none', firstIdxFrom_eq_none, List.mem_reverse]

lemma lastIdxOf_cons_of_mem (c : Char) (cs : List Char) (x : Char)
    (h : x ∈ cs) :
    lastIdxOf (c :: cs) x = (lastIdxOf cs x).map (· + 1) := by
  have hxr : x ∈ cs.reverse := List.mem_reverse.mpr h
  obtain ⟨k, hk⟩ : ∃ k, firstIdxFrom cs.reverse x = some k := by
    cases hfi : firstIdxFrom cs.reverse x with
    | none => exact absurd ((firstIdxFrom_eq_none _ _).mp hfi) (by simpa using hxr)
    | some k => exact ⟨k, rfl⟩
  have hklen : k < cs.length := by
    have := firstIdxFrom_lt_length _ _ _ hk
    simpa using this
  simp only [lastIdxOf, List.reverse_cons,
    firstIdxFrom_append_of_mem _ _ _ hxr, hk, Option.map_some',
    List.length_cons]
  congr 1
  omega

lemma not_rbrace_in_dropWhile (cs : List Char) (h : noJsonSpanB cs = true) :
    rbrace ∉ cs.dropWhile (fun c => !(c = lbrace : Bool)) := by
  induction cs with
  | nil => simp
  | cons c cs ih =>
    by_cases hc : c = lbrace
    · subst hc
      rw [List.dropWhile_cons, if_neg (by simp)]
      have hfi : firstIdxFrom (lbrace :: cs) lbrace = some 0 := by
        simp [firstIdxFrom]
      cases hml : lastIdxOf (lbrace :: cs) rbrace with
      | none => exact (lastIdxOf_eq_none _ _).mp hml
      | some j =>
        simp only [noJsonSpanB, hfi, hml] at h
        simp at h
    · rw [List.dropWhile_cons, if_pos (by simpa using hc)]
      refine ih ?_
      cases hfi : firstIdxFrom cs lbrace with
      | none => simp [noJsonSpanB, hfi]
      | some i =>
        have hfi2 : firstIdxFrom (c :: cs) lbrace = some (i + 1) := by
          simp [firstIdxFrom, hc, hfi]
        by_cases hmem : rbrace ∈ cs
        · obtain ⟨j, hj⟩ : ∃ j, lastIdxOf cs rbrace = some j := by
            cases hml : lastIdxOf cs rbrace with
            | none => exact absurd ((lastIdxOf_eq_none _ _).mp hml) (by simpa using hmem)
            | some j => exact ⟨j, rfl⟩
          have hml2 : lastIdxOf (c :: cs) rbrace = some (j + 1) := by
            rw [lastIdxOf_cons_of_mem c cs rbrace hmem, hj]
            rfl
          simp only [noJsonSpanB, hfi2, hml2, decide_eq_true_eq] at h
          simp only [noJsonSpanB, hfi, hj, decide_eq_true_eq]
          omega
        · have hml : lastIdxOf cs rbrace = none :=
            (lastIdxOf_eq_none _ _).mpr hmem
          simp [noJsonSpanB, hfi, hml]

lemma braceSpan_none_of_noJsonSpanB (cs : List Char)
    (h : noJsonSpanB cs = true) : braceSpan cs = none := by
  have hnr := not_rbrace_in_dropWhile cs h
  cases ht : cs.dropWhile (fun c => !(c = lbrace : Bool)) with
  | nil => simp [braceSpan, ht]
  | cons t1 t2 =>
    have hr : (t1 :: t2).reverse.dropWhile (fun c => !(c = rbrace : Bool)) = [] := by
      rw [List.dropWhile_eq_nil_iff]
      intro x hx
      have hxm : x ∈ t1 :: t2 := List.mem_reverse.mp hx
      have hne : x ≠ rbrace := fun he => (ht ▸ hnr) (he ▸ hxm)
      simpa using hne
    simp only [List.reverse_cons] at hr
    simp [braceSpan, ht, hr]

/-! Claim theorems. -/

/-- C1: for every input that is a valid JSON object containing the four
expected fields (arbitrary string contents, `insurance_status` one of the
three recognized enumeration values), `parse_json_response` returns the
object whose fields equal the corresponding input fields, and the caller
stores it as a success (round-trip). -/
theorem C1_roundtrip (e i n d : String)
    (hi : i = "LIKELY_COVERED" ∨ i = "PARTIALLY_COVERED" ∨ i = "NOT_COVERED") :
    parse_json_response (mkBillingJson e i n d) =
      Json.obj [("explanation", Json.str e), ("insurance_status", Json.str i),
        ("insurance_note", Json.str n), ("disclaimer", Json.str d)] ∧
    storeExplanation (mkBillingJson e i n d) =
      Json.obj [("explanation", Json.str e), ("insurance_status", Json.str i),
        ("insurance_note", Json.str n), ("disclaimer", Json.str d)] := by
  have hp := parse_json_response_objChunk
    [("explanation", e), ("insurance_status", i), ("insurance_note", n),
      ("disclaimer", d)] (by simp)
  have hp2 : parse_json_response (mkBillingJson e i n d) =
      Json.obj [("explanation", Json.str e), ("insurance_status", Json.str i),
        ("insurance_note", Json.str n), ("disclaimer", Json.str d)] := by
    simpa [objOf, mkBillingJson] using hp
  exact ⟨hp2, storeExplanation_of_obj _ _ (by simp) hp2⟩

/-- C1 witness: the round-trip at a concrete four-field object. -/
theorem C1_roundtrip_witness :
    parse_json_response
        (mkBillingJson "Consultation fee." "LIKELY_COVERED" "Usually covered."
          "Not financial advice.") =
      Json.obj [("explanation", Json.str "Consultation fee."),
        ("insurance_status", Json.str "LIKELY_COVERED"),
        ("insurance_note", Json.str "Usually covered."),
        ("disclaimer", Json.str "Not financial advice.")] ∧
    storeExplanation
        (mkBillingJson "Consultation fee." "LIKELY_COVERED" "Usually covered."
          "Not financial advice.") =
      Json.obj [("explanation", Json.str "Consultation fee."),
        ("insurance_status", Json.str "LIKELY_COVERED"),
        ("insurance_note", Json.str "Usually covered."),
        ("disclaimer", Json.str "Not financial advice.")] :=
  C1_roundtrip "Consultation fee." "LIKELY_COVERED" "Usually covered."
    "Not financial advice." (Or.inl rfl)

/-- C2 counterexample: calling the extractor with Python `None` raises an
uncaught `TypeError` from `re.search` (the `except` clause only catches
`json.JSONDecodeError`), so `extract(null)` does not return a typed
`EmptyResponse` failure. -/
theorem C2_null_raises :
    parse_json_response_py none = PyCall.raised "TypeError" := rfl

/-- C2 (amended): `extract("")` returns the untyped failure sentinel `None`
(which the caller replaces with the string `"FAILED"`), and `extract(None)`
raises `TypeError`; no typed `EmptyResponse` result exists in the code. -/
theorem C2_empty_and_null :
    parse_json_response "" = Json.null ∧
    storeExplanation "" = Json.str "FAILED" ∧
    parse_json_response_py none = PyCall.raised "TypeError" :=
  ⟨rfl, rfl, rfl⟩

/-- C3 counterexample: the object parsed from an input lacking
`insurance_status` is truthy and is stored by the caller as a success, so a
partially-populated record is exposed and the all-or-nothing invariant is
false. -/
theorem C3_partial_record_exposed :
    parse_json_response "\x7b\"explanation\": \"x\"\x7d" =
      Json.obj [("explanation", Json.str "x")] ∧
    storeExplanation "\x7b\"explanation\": \"x\"\x7d" =
      Json.obj [("explanation", Json.str "x")] ∧
    dictGet [("explanation", Json.str "x")] "insurance_status" = none :=
  ⟨rfl, rfl, rfl⟩

/-- C3 (amended): the extractor validates nothing; for every explanation
text, the one-field object missing `insurance_status` is parsed and exposed
to the caller as a success. -/
theorem C3_no_validation (e : String) :
    storeExplanation (mkExplanationOnlyJson e) =
      Json.obj [("explanation", Json.str e)] ∧
    dictGet [("explanation", Json.str e)] "insurance_status" = none := by
  have hp := parse_json_response_objChunk [("explanation", e)] (by simp)
  have hp2 : parse_json_response (mkExplanationOnlyJson e) =
      Json.obj [("explanation", Json.str e)] := by
    simpa [objOf, mkExplanationOnlyJson] using hp
  exact ⟨storeExplanation_of_obj _ _ (by simp) hp2, rfl⟩

/-- C4 counterexample: on the claim's example input the extractor returns
the parsed object carrying `insurance_status = "MAYBE"` as a truthy
success; there is no `InvalidEnumValue` failure. -/
theorem C4_invalid_enum_success :
    parse_json_response
        "Sure! \x7b\"explanation\":\"x\",\"insurance_status\":\"MAYBE\"\x7d Hope that helps." =
      Json.obj [("explanation", Json.str "x"),
        ("insurance_status", Json.str "MAYBE")] ∧
    pyTruthy (Json.obj [("explanation", Json.str "x"),
        ("insurance_status", Json.str "MAYBE")]) = true :=
  ⟨rfl, rfl⟩

/-- C4 (amended): no enumeration validation occurs; for every status string
the prose-wrapped two-field object is returned and stored as a success with
that status preserved, and the display layer renders any unrecognized
status (such as `"MAYBE"`) with the not-covered error badge. -/
theorem C4_any_status_accepted (st : String) :
    storeExplanation (mkStatusResponse st) =
      Json.obj [("explanation", Json.str "x"),
        ("insurance_status", Json.str st)] ∧
    statusBadge (dictGetD [("explanation", Json.str "x"),
        ("insurance_status", Json.str "MAYBE")] "insurance_status"
        (Json.str "UNKNOWN")) = Badge.error := by
  have hp := parse_json_response_wrapped "Sure! ".data " Hope that helps.".data
    [("explanation", "x"), ("insurance_status", st)] (by simp) (by decide)
    (by decide)
  have hp2 : parse_json_response (mkStatusResponse st) =
      Json.obj [("explanation", Json.str "x"),
        ("insurance_status", Json.str st)] := by
    simpa [objOf, mkStatusResponse] using hp
  exact ⟨storeExplanation_of_obj _ _ (by simp) hp2, rfl⟩

/-- C5 counterexample: on the claim's example input, which lacks
`insurance_status`, the extractor returns the parsed one-field object as a
truthy success; there is no `MissingField` failure. -/
theorem C5_missing_field_success :
    parse_json_response "\x7b\"explanation\":\"x\"\x7d" =
      Json.obj [("explanation", Json.str "x")] ∧
    pyTruthy (Json.obj [("explanation", Json.str "x")]) = true :=
  ⟨rfl, rfl⟩

/-- C5 (amended): required fields are not checked; the object missing
`insurance_status` is stored as a success, and the display layer's
`data.get("insurance_status", "UNKNOWN")` substitutes `"UNKNOWN"`, which is
rendered with the not-covered error badge. -/
theorem C5_missing_field_defaults :
    storeExplanation "\x7b\"explanation\":\"x\"\x7d" =
      Json.obj [("explanation", Json.str "x")] ∧
    dictGetD [("explanation", Json.str "x")] "insurance_status"
        (Json.str "UNKNOWN") = Json.str "UNKNOWN" ∧
    statusBadge (Json.str "UNKNOWN") = Badge.error :=
  ⟨rfl, rfl, rfl⟩

/-- C6 counterexample: `"true"` is a non-empty input with no braces at all,
yet the extractor succeeds on it (via the whole-text fallback) instead of
failing, so the claim that every such input yields `NoJsonFound` is
false. -/
theorem C6_bracefree_json_succeeds :
    noJsonSpanB "true".data = true ∧
    parse_json_response "true" = Json.bool true ∧
    pyTruthy (Json.bool true) = true :=
  ⟨rfl, rfl, rfl⟩

/-- C6 (amended): when the first `\x7b` is absent, or the last `\x7d` is
absent, or the last `\x7d` precedes the first `\x7b`, the extractor parses
the whole input as JSON and returns the untyped failure `None` exactly when
that parse fails; there is no typed `NoJsonFound` result. -/
theorem C6_no_span_whole_fallback (s : String)
    (h : noJsonSpanB s.data = true) :
    parse_json_response s = (jsonLoads s).getD Json.null := by
  have hb := braceSpan_none_of_noJsonSpanB s.data h
  simp [parse_json_response, jsonLoads, hb]

/-- C6 witness: on `"no braces here"` the whole-text fallback fails to
parse and the failure sentinel `None` is returned. -/
theorem C6_no_span_whole_fallback_witness :
    parse_json_response "no braces here" = Json.null :=
  (C6_no_span_whole_fallback "no braces here" (by decide)).trans (by rfl)

/-- C7 counterexample: on the fenced example input the extractor succeeds,
but the returned object simply lacks `insurance_note` and `disclaimer` -
they are not defaulted to the empty string. -/
theorem C7_fence_no_defaults :
    parse_json_response
        "```json\n\x7b\"explanation\":\"x\",\"insurance_status\":\"LIKELY_COVERED\"\x7d\n```" =
      Json.obj [("explanation", Json.str "x"),
        ("insurance_status", Json.str "LIKELY_COVERED")] ∧
    dictGet [("explanation", Json.str "x"),
        ("insurance_status", Json.str "LIKELY_COVERED")] "disclaimer" =
      none :=
  ⟨rfl, rfl⟩

/-- C7 (amended): no fence stripping is performed; the brace-span regex
skips the fence text incidentally, the fenced example succeeds with
`explanation = "x"` and `insuranceStatus = LIKELY_COVERED`, and
`insurance_note` and `disclaimer` are absent from the stored object (the
caller's `.get` would yield Python `None`, not the empty string). -/
theorem C7_fence_example_result :
    storeExplanation
        "```json\n\x7b\"explanation\":\"x\",\"insurance_status\":\"LIKELY_COVERED\"\x7d\n```" =
      Json.obj [("explanation", Json.str "x"),
        ("insurance_status", Json.str "LIKELY_COVERED")] ∧
    dictGet [("explanation", Json.str "x"),
        ("insurance_status", Json.str "LIKELY_COVERED")] "insurance_note" =
      none ∧
    dictGetD [("explanation", Json.str "x"),
        ("insurance_status", Json.str "LIKELY_COVERED")] "insurance_note"
        Json.null = Json.null :=
  ⟨rfl, rfl, rfl⟩

/-- C8 counterexample: the null-equivalent input does not produce a value
of the result type - the call raises `TypeError` instead - so the claim
that every input yields a typed result without raising is false. -/
theorem C8_null_input_raises :
    ¬ ∃ v, parse_json_response_py none = PyCall.returns v := by
  rintro ⟨v, hv⟩
  have hr : parse_json_response_py none = PyCall.raised "TypeError" := rfl
  rw [hr] at hv
  exact PyCall.noConfusion hv

/-- C8 (amended): for every string input the extractor returns a value
without raising (all `json.JSONDecodeError` failures are caught and mapped
to `None`); only the null-equivalent input raises. -/
theorem C8_string_input_total (s : String) :
    ∃ v : Json, parse_json_response_py (some s) = PyCall.returns v :=
  ⟨parse_json_response s, rfl⟩

/-- C9: when the input contains no brace span, `parse_json_response` falls
back to parsing the entire input as JSON, so every brace-free input that is
itself valid JSON yields its (possibly non-object) JSON value, which the
caller stores as a success whenever it is truthy. -/
theorem C9_fallback_whole_input (s : String) (v : Json)
    (hb : braceSpan s.data = none) (hv : jsonLoads s = some v) :
    parse_json_response s = v ∧
      (pyTruthy v = true → storeExplanation s = v) := by
  have hp : parse_json_response s = v := by
    simp only [parse_json_response, hb]
    rw [show loadsL s.data = some v from hv]
    rfl
  refine ⟨hp, fun ht => ?_⟩
  simp [storeExplanation, hp, ht]

/-- C9 witness: the brace-free input `"42"` parses as the JSON number 42
and is returned (and stored) as a success. -/
theorem C9_fallback_whole_input_witness :
    parse_json_response "42" = Json.num 42 ∧
      (pyTruthy (Json.num 42) = true → storeExplanation "42" = Json.num 42) :=
  C9_fallback_whole_input "42" (Json.num 42) rfl rfl

/-- C10: failure is signalled by returning `None`, which collides with
legitimate results: the valid JSON input `"null"` returns the same value as
an unparseable input, and the caller's truthiness check stores the falsy
success `\x7b\x7d` (a legitimate parse of the empty object) as `"FAILED"`. -/
theorem C10_none_collision :
    parse_json_response "null" = Json.null ∧
    parse_json_response "" = Json.null ∧
    jsonLoads "\x7b\x7d" = some (Json.obj []) ∧
    storeExplanation "\x7b\x7d" = Json.str "FAILED" :=
  ⟨rfl, rfl, rfl, rfl⟩

end MediBill
